import Mathlib

/-!
# Verification of the image compression service (`src/compress_service.py`)

A shallow embedding of the compression pipeline.  The repository's core is
`compress_image_bytes` (decode, alpha flattening, proportional resize, and a
descending JPEG-quality ladder) plus the `/compress` request handler.

External library behaviour that the source relies on is embedded explicitly:

* A decoded PIL raster becomes `Img`: a color mode, dimensions, a channel
  accessor `px x y c`, a palette, and the optional `info["transparency"]`
  entry of palette images.
* `img.split()[-1]` (line 31) becomes `lastBand`: for `RGBA`/`LA` it is the
  alpha band (a mode-`L` image); for a single-band image (`P`, `L`) PIL's
  `split` returns the image itself, so the "mask" of a palette image is the
  palette-index band of mode `P`, not an alpha channel.
* `background.paste(img, mask=...)` becomes `pasteMasked`: PIL accepts only
  `1`/`L`/`LA`/`RGBA`/`RGBa` masks and raises `ValueError("bad transparency
  mask")` otherwise; with an `L` mask each channel is blended with PIL's
  rounding multiply-divide `MULDIV255` (Paste.c).  Of the accepted mask modes
  only `L` can arise here, since `split` bands are single-band images.
* The JPEG codec (`img.save(format="JPEG", quality=q, optimize=True)`) is an
  abstract deterministic function `codec : Img → Nat → List Nat` from the
  pixel buffer and quality to the encoded bytes.
* `int(quality * 0.85)` (line 50) is embedded as `quality * 85 / 100` in exact
  natural arithmetic, which agrees with the Python float computation on the
  whole 1–100 quality scale.
* The while loop of lines 49–53 strictly decreases `quality` on every
  iteration, so it is embedded as structural recursion on a fuel argument
  initialised to the starting quality; `budgetLoopF_fuel_irrelevant` shows any
  sufficient fuel computes the same result, i.e. the fuel is invisible.
-/

namespace ImageCompressor

/-- The PIL color modes relevant to the service: `RGB`, the alpha-carrying
modes `RGBA` and `LA`, palette-indexed `P`, and grayscale `L` standing in for
the remaining opaque modes (line 33's `img.mode != "RGB"` branch). -/
inductive Mode where
  | RGB
  | RGBA
  | LA
  | P
  | L
deriving DecidableEq

/-- A decoded raster (PIL `Image`).  `px x y c` is channel `c` of pixel
`(x, y)`: `RGB` uses channels 0–2, `RGBA` 0–3 (3 = alpha), `LA` 0–1
(1 = alpha), `P` and `L` use channel 0.  `palette` maps a palette index to an
RGB triple; `transparency` models `info["transparency"]` of a palette image
(the transparent palette index, when declared). -/
structure Img where
  mode : Mode
  width : Nat
  height : Nat
  px : Nat → Nat → Nat → Nat
  palette : Nat → Nat × Nat × Nat
  transparency : Option Nat

/-- Channel `c` of an RGB triple. -/
def tripleChan : Nat × Nat × Nat → Nat → Nat
  | (r, _, _), 0 => r
  | (_, g, _), 1 => g
  | (_, _, b), _ => b

/-- PIL's `MULDIV255` macro (Paste.c): `t = a*b + 128; (t + (t >> 8)) >> 8`,
a rounding multiply-then-divide by 255. -/
def muldiv255 (a b : Nat) : Nat :=
  ((a * b + 128) + (a * b + 128) / 256) / 256

/-- PIL's `BLEND` (Paste.c): channel value after pasting source channel
`srcc` over background channel `bgc` under an `L`-mode mask value `m`. -/
def blend (m bgc srcc : Nat) : Nat :=
  muldiv255 bgc (255 - m) + muldiv255 srcc m

/-- Channel `c` of the source pixel once converted to RGB for pasting onto an
RGB canvas (`Image.paste` converts a `P` source through its palette and keeps
the color channels of `RGBA`/`LA` sources; `LA` stores its gray level
replicated across the color bytes). -/
def srcChan (img : Img) (x y c : Nat) : Nat :=
  match img.mode with
  | .RGB => img.px x y c
  | .RGBA => img.px x y c
  | .LA => img.px x y 0
  | .L => img.px x y 0
  | .P => tripleChan (img.palette (img.px x y 0)) c

/-- `img.split()[-1]` (line 31): the last band, as its mode and its value
function.  For `RGBA`/`LA` this is the alpha band (mode `L`); for the
single-band modes `P` and `L`, `split` returns the image itself, so the last
band of a palette image is the palette-index band of mode `P`. -/
def lastBand (img : Img) : Mode × (Nat → Nat → Nat) :=
  match img.mode with
  | .RGBA => (.L, fun x y => img.px x y 3)
  | .LA => (.L, fun x y => img.px x y 1)
  | .RGB => (.L, fun x y => img.px x y 2)
  | .P => (.P, fun x y => img.px x y 0)
  | .L => (.L, fun x y => img.px x y 0)

/-- `Image.new("RGB", (w, h), (255, 255, 255))` (line 30): the opaque white
canvas. -/
def whiteCanvas (w h : Nat) : Img where
  mode := .RGB
  width := w
  height := h
  px := fun _ _ _ => 255
  palette := fun _ => (0, 0, 0)
  transparency := none

/-- Errors surfaced by the embedded PIL calls: the `ValueError("bad
transparency mask")` of `Image.paste`, and a decode failure of `Image.open`.
Both are caught by the handler's generic `except` (line 82). -/
inductive PILError where
  | badTransparencyMask
  | decodeError
deriving DecidableEq

/-- `background.paste(img, mask=maskBand)` (line 31) where `background` is an
RGB canvas: PIL rejects every mask whose mode is not `1`/`L`/`LA`/`RGBA`/
`RGBa` with `ValueError("bad transparency mask")`; of those modes only `L`
can arise here (a band produced by `split` is a single-band image).  With an
`L` mask, each channel of the result is `BLEND(mask, bg, src)`. -/
def pasteMasked (bg src : Img) (maskMode : Mode) (maskBand : Nat → Nat → Nat) :
    Except PILError Img :=
  match maskMode with
  | .L =>
    .ok { mode := .RGB
          width := bg.width
          height := bg.height
          px := fun x y c => blend (maskBand x y) (bg.px x y c) (srcChan src x y c)
          palette := bg.palette
          transparency := none }
  | _ => .error .badTransparencyMask

/-- `img.convert("RGB")` (line 34): direct mode cast to RGB with no blend
step (palette lookup for `P`, gray replication for `L`, alpha dropped for the
alpha modes — though the alpha modes never reach this call in the source). -/
def convertRGB (img : Img) : Img where
  mode := .RGB
  width := img.width
  height := img.height
  px := fun x y c => srcChan img x y c
  palette := img.palette
  transparency := none

/-- Lines 29–34: if the mode is `RGBA`/`LA`, or `P` with a declared
`info["transparency"]`, paste the image onto a white canvas with
`img.split()[-1]` as the mask; otherwise convert non-RGB modes to RGB. -/
def flattenAlpha (img : Img) : Except PILError Img :=
  if (img.mode = .RGBA ∨ img.mode = .LA) ∨ (img.mode = .P ∧ img.transparency.isSome) then
    pasteMasked (whiteCanvas img.width img.height) img (lastBand img).1 (lastBand img).2
  else if img.mode ≠ .RGB then
    .ok (convertRGB img)
  else
    .ok img

/-- Lines 37–42: if the longer side exceeds `MAX_DIM`, scale both dimensions
by `MAX_DIM / max_side`.  Python's `int(w * scale)` truncates, so each new
dimension is `⌊w * MAX_DIM / max_side⌋`, embedded as natural division (the
float computation agrees on these magnitudes).  The LANCZOS resampling of
the pixel content is not modelled; only the geometry changes. -/
def resizeStep (MAX_DIM : Nat) (img : Img) : Img :=
  if MAX_DIM < max img.width img.height then
    { img with
      width := img.width * MAX_DIM / max img.width img.height
      height := img.height * MAX_DIM / max img.width img.height }
  else
    img

/-- The normalization stage of `compress_image_bytes` (lines 29–42): alpha
flattening followed by the bounded resize, on an already decoded raster. -/
def normalizeImg (MAX_DIM : Nat) (img : Img) : Except PILError Img :=
  match flattenAlpha img with
  | .error e => .error e
  | .ok flat => .ok (resizeStep MAX_DIM flat)

/-- The encoded size at a given quality, for a fixed codec and pixel
buffer: `len(out.getvalue())` of `img.save(..., quality=q)`. -/
def encSize (codec : Img → Nat → List Nat) (img : Img) : Nat → Nat :=
  fun q => (codec img q).length

/-- The while loop of lines 49–53, with an explicit fuel:
`while len(out_bytes) > MAX_BYTES and quality > 30:` update
`quality = max(30, int(quality * 0.85))` and re-encode the same buffer.
Each iteration strictly decreases `quality`, so fuel `= quality` is enough
(`budgetLoopF_fuel_irrelevant`); with that fuel this is exactly the source
loop. -/
def budgetLoopF (codec : Img → Nat → List Nat) (MAX_BYTES : Nat) (img : Img) :
    Nat → Nat → List Nat → Nat × List Nat
  | 0, quality, out_bytes => (quality, out_bytes)
  | fuel + 1, quality, out_bytes =>
    if MAX_BYTES < out_bytes.length ∧ 30 < quality then
      budgetLoopF codec MAX_BYTES img fuel (max 30 (quality * 85 / 100))
        (codec img (max 30 (quality * 85 / 100)))
    else
      (quality, out_bytes)

/-- Lines 48–53: the quality ladder loop started from `quality` and the bytes
already encoded at `quality`; returns the final quality and the last
encoding. -/
def budgetLoop (codec : Img → Nat → List Nat) (MAX_BYTES : Nat) (img : Img)
    (quality : Nat) (out_bytes : List Nat) : Nat × List Nat :=
  budgetLoopF codec MAX_BYTES img quality quality out_bytes

/-- Lines 44–53: encode once at the initial quality, then run the ladder
loop.  Returns `(quality used, encoded bytes)`. -/
def encodeToBudget (codec : Img → Nat → List Nat) (MAX_BYTES : Nat) (img : Img)
    (initQ : Nat) : Nat × List Nat :=
  budgetLoop codec MAX_BYTES img initQ (codec img initQ)

/-- The list of qualities at which the loop encodes (the first entry is the
initial encode of line 45, one further entry per loop iteration), as a
function of the size at each quality; instrumentation of `budgetLoopF` with
the same fuel discipline. -/
def attemptsF (sz : Nat → Nat) (MAX_BYTES : Nat) : Nat → Nat → List Nat
  | 0, q => [q]
  | fuel + 1, q =>
    if MAX_BYTES < sz q ∧ 30 < q then
      q :: attemptsF sz MAX_BYTES fuel (max 30 (q * 85 / 100))
    else
      [q]

/-- The attempted-quality sequence starting from quality `q`. -/
def attempts (sz : Nat → Nat) (MAX_BYTES q : Nat) : List Nat :=
  attemptsF sz MAX_BYTES q q

/-- The quality the loop stops at, as a function of the size at each
quality; instrumentation of `budgetLoopF` with the same fuel discipline. -/
def finalQualityF (sz : Nat → Nat) (MAX_BYTES : Nat) : Nat → Nat → Nat
  | 0, q => q
  | fuel + 1, q =>
    if MAX_BYTES < sz q ∧ 30 < q then
      finalQualityF sz MAX_BYTES fuel (max 30 (q * 85 / 100))
    else
      q

/-- The quality at which the ladder started from `q` stops. -/
def finalQuality (sz : Nat → Nat) (MAX_BYTES q : Nat) : Nat :=
  finalQualityF sz MAX_BYTES q q

/-- The pure decay chain `q, max(30, ⌊q*0.85⌋), …` down to the floor 30,
ignoring sizes: the full ladder the encoder would walk if no attempt ever met
the budget. -/
def qualityChainF : Nat → Nat → List Nat
  | 0, q => [q]
  | fuel + 1, q =>
    if 30 < q then q :: qualityChainF fuel (max 30 (q * 85 / 100)) else [q]

/-- The full decay chain from `q`. -/
def qualityChain (q : Nat) : List Nat :=
  qualityChainF q q

/-- `compress_image_bytes` (lines 25–55): decode (`Image.open`, abstracted as
the `decode` parameter), flatten alpha, resize, then the quality ladder with
initial quality `JPEG_QUALITY`; any PIL error propagates to the caller's
`except`. -/
def compress_image_bytes (decode : List Nat → Except PILError Img)
    (codec : Img → Nat → List Nat) (MAX_BYTES MAX_DIM JPEG_QUALITY : Nat)
    (image_bytes : List Nat) : Except PILError (List Nat) :=
  match decode image_bytes with
  | .error e => .error e
  | .ok img0 =>
    match normalizeImg MAX_DIM img0 with
    | .error e => .error e
    | .ok img2 => .ok (encodeToBudget codec MAX_BYTES img2 JPEG_QUALITY).2

/-- The possible responses of the `/compress` handler (lines 57–107):
401 unauthorized, 400 missing url, 400 fetch failure, the verbatim
`send_file` of a small-enough fetched image (line 77), 500 on a compression
exception, and the two success shapes (JSON metadata or the compressed
file). -/
inductive Response where
  | unauthorized
  | missingUrl
  | fetchFailed (detail : String)
  | fileResp (bytes : List Nat) (mimetype : String) (downloadName : String)
  | compressFailed (detail : String)
  | jsonOk (originalLen compressedLen : Nat)
  | compressedFile (bytes : List Nat) (originalSize finalSize : Nat)

/-- The `/compress` handler (lines 57–107).  The network fetch itself is an
external collaborator, so the handler is modelled from the fetch outcome on:
`key` is the presented API key, `url` the request's url parameter,
`jsonFlag` the `json=true` query flag, `fetchResult` the outcome of
`fetch_image`.  The content-type allow-list check of line 73 is a no-op in
the source (`pass`). -/
def compress (API_KEY : String) (MAX_BYTES MAX_DIM JPEG_QUALITY : Nat)
    (decode : List Nat → Except PILError Img) (codec : Img → Nat → List Nat)
    (key : Option String) (url : Option String) (jsonFlag : Bool)
    (fetchResult : Except String (List Nat × String)) : Response :=
  if key ≠ some API_KEY then
    .unauthorized
  else if url = none then
    .missingUrl
  else
    match fetchResult with
    | .error e => .fetchFailed e
    | .ok (img_bytes, content_type) =>
      if img_bytes.length ≤ MAX_BYTES then
        .fileResp img_bytes content_type "image.jpg"
      else
        match compress_image_bytes decode codec MAX_BYTES MAX_DIM JPEG_QUALITY img_bytes with
        | .error _ => .compressFailed "compress_failed"
        | .ok compressed =>
          if jsonFlag then
            .jsonOk img_bytes.length compressed.length
          else
            .compressedFile compressed img_bytes.length compressed.length

/-- The rounding rule the spec claims for the resize ("rounding each
resulting dimension to the nearest integer"): the nearest integer to `a / b`
(ties rounding up), stated for comparison with the source's truncation. -/
def specRoundNearest (a b : Nat) : Nat :=
  (2 * a + b) / (2 * b)

/-! ## Concrete inputs used to instantiate the general theorems -/

/-- A small opaque 8×8 RGB raster. -/
def demoImg : Img where
  mode := .RGB
  width := 8
  height := 8
  px := fun _ _ _ => 0
  palette := fun _ => (0, 0, 0)
  transparency := none

/-- A codec whose output at quality `q` has exactly `q` bytes, so the ladder
behaviour is visible in the sizes. -/
def demoCodec : Img → Nat → List Nat :=
  fun _ q => List.replicate q 0

/-- A codec whose output has 100 bytes at every quality: no quality can meet
a budget below 100. -/
def bigCodec : Img → Nat → List Nat :=
  fun _ _ => List.replicate 100 0

/-- A decoder that accepts anything and yields the demo raster. -/
def demoDecode : List Nat → Except PILError Img :=
  fun _ => .ok demoImg

/-- A 1×1 palette image whose `info["transparency"]` declares palette index 3
transparent, and whose single pixel carries exactly that index: a
fully-transparent palette image, squarely inside the alpha-flattening
claim's domain. -/
def pTransImg : Img where
  mode := .P
  width := 1
  height := 1
  px := fun _ _ _ => 3
  palette := fun _ => (0, 0, 0)
  transparency := some 3

/-- A 4800×1001 opaque RGB raster: scaling by 1600/4800 sends the height to
333.66…, where truncation (333) and round-to-nearest (334) differ. -/
def wideImg : Img where
  mode := .RGB
  width := 4800
  height := 1001
  px := fun _ _ _ => 0
  palette := fun _ => (0, 0, 0)
  transparency := none

/-- A 100×50 opaque RGB raster, already within every realistic dimension
bound. -/
def smallImg : Img where
  mode := .RGB
  width := 100
  height := 50
  px := fun _ _ _ => 0
  palette := fun _ => (0, 0, 0)
  transparency := none

/-! ## Blending facts -/

/-- `MULDIV255(a, 0) = 0`: a zero mask contributes nothing. -/
theorem muldiv255_zero (a : Nat) : muldiv255 a 0 = 0 := by
  simp [muldiv255]

/-- `MULDIV255(255, 255) = 255`. -/
theorem muldiv255_full : muldiv255 255 255 = 255 := by
  decide

/-- Pasting under mask value 0 leaves the (white) background untouched. -/
theorem blend_mask_zero (srcc : Nat) : blend 0 255 srcc = 255 := by
  simp [blend, muldiv255_zero, muldiv255_full]

/-! ## Geometry of flattening and resizing -/

/-- A successful masked paste produces an image with the canvas geometry. -/
theorem pasteMasked_dims (bg src : Img) (m : Mode) (band : Nat → Nat → Nat)
    (out : Img) (h : pasteMasked bg src m band = .ok out) :
    out.width = bg.width ∧ out.height = bg.height := by
  cases m <;> simp only [pasteMasked] at h
  case L =>
    injection h with h
    subst h
    exact ⟨rfl, rfl⟩
  all_goals cases h

/-- Alpha flattening never changes the dimensions. -/
theorem flattenAlpha_dims (img out : Img) (h : flattenAlpha img = .ok out) :
    out.width = img.width ∧ out.height = img.height := by
  unfold flattenAlpha at h
  split at h
  · have hd := pasteMasked_dims _ _ _ _ _ h
    simpa [whiteCanvas] using hd
  · split at h
    · injection h with h
      subst h
      exact ⟨rfl, rfl⟩
    · injection h with h
      subst h
      exact ⟨rfl, rfl⟩

/-- After the resize step the longer side is within the bound,
unconditionally (either the source was already within the bound and is
untouched, or both scaled dimensions are at most `MAX_DIM`). -/
theorem resizeStep_max_le (MAX_DIM : Nat) (img : Img) :
    max (resizeStep MAX_DIM img).width (resizeStep MAX_DIM img).height ≤ MAX_DIM := by
  unfold resizeStep
  split
  · rename_i h
    have hpos : 0 < max img.width img.height := lt_of_le_of_lt (Nat.zero_le _) h
    have key : ∀ d : Nat, d ≤ max img.width img.height →
        d * MAX_DIM / max img.width img.height ≤ MAX_DIM := by
      intro d hd
      calc d * MAX_DIM / max img.width img.height
          ≤ max img.width img.height * MAX_DIM / max img.width img.height :=
            Nat.div_le_div_right (Nat.mul_le_mul_right _ hd)
        _ = MAX_DIM := Nat.mul_div_cancel_left _ hpos
    exact max_le (key _ (le_max_left _ _)) (key _ (le_max_right _ _))
  · rename_i h
    exact Nat.le_of_not_lt h

/-- No resize happens when the longer side is already within the bound. -/
theorem resizeStep_id (MAX_DIM : Nat) (img : Img)
    (h : max img.width img.height ≤ MAX_DIM) :
    resizeStep MAX_DIM img = img := by
  unfold resizeStep
  rw [if_neg (Nat.not_lt.mpr h)]

/-! ## The quality ladder -/

/-- The decay update strictly decreases any quality above the floor. -/
theorem decay_lt {q : Nat} (h : 30 < q) : max 30 (q * 85 / 100) < q :=
  max_lt h (by omega)

/-- The loop equals its `finalQualityF` instrumentation: the returned pair is
the stopping quality together with the encoding at that quality. -/
theorem budgetLoopF_spec (codec : Img → Nat → List Nat) (MB : Nat) (img : Img) :
    ∀ fuel q, budgetLoopF codec MB img fuel q (codec img q)
      = (finalQualityF (encSize codec img) MB fuel q,
         codec img (finalQualityF (encSize codec img) MB fuel q)) := by
  intro fuel
  induction fuel with
  | zero => intro q; rfl
  | succ n ih =>
    intro q
    simp only [budgetLoopF, finalQualityF, encSize]
    by_cases h : MB < (codec img q).length ∧ 30 < q
    · rw [if_pos h, if_pos h]
      exact ih _
    · rw [if_neg h, if_neg h]

/-- The ladder started at `q` with the encoding of `q` already in hand
returns the stopping quality and the encoding at it. -/
theorem budgetLoop_final (codec : Img → Nat → List Nat) (MB : Nat) (img : Img)
    (q : Nat) :
    encodeToBudget codec MB img q
      = (finalQuality (encSize codec img) MB q,
         codec img (finalQuality (encSize codec img) MB q)) :=
  budgetLoopF_spec codec MB img q q

/-- Any fuel at least the starting quality computes the same loop result:
the fuel discipline is invisible. -/
theorem budgetLoopF_fuel_irrelevant (codec : Img → Nat → List Nat) (MB : Nat)
    (img : Img) :
    ∀ f g q out, q ≤ f → q ≤ g →
      budgetLoopF codec MB img f q out = budgetLoopF codec MB img g q out := by
  intro f
  induction f with
  | zero =>
    intro g q out hf hg
    obtain rfl : q = 0 := by omega
    cases g with
    | zero => rfl
    | succ m =>
      simp only [budgetLoopF]
      rw [if_neg (by omega)]
  | succ n ih =>
    intro g q out hf hg
    cases g with
    | zero =>
      obtain rfl : q = 0 := by omega
      simp only [budgetLoopF]
      rw [if_neg (by omega)]
    | succ m =>
      simp only [budgetLoopF]
      by_cases hc : MB < out.length ∧ 30 < q
      · rw [if_pos hc, if_pos hc]
        have hlt := decay_lt hc.2
        exact ih m _ _ (by omega) (by omega)
      · rw [if_neg hc, if_neg hc]

/-- The stopping quality never drops below the floor when started there. -/
theorem finalQualityF_ge (sz : Nat → Nat) (MB : Nat) :
    ∀ fuel q, 30 ≤ q → 30 ≤ finalQualityF sz MB fuel q := by
  intro fuel
  induction fuel with
  | zero => intro q h; exact h
  | succ n ih =>
    intro q h
    simp only [finalQualityF]
    split
    · exact ih _ (le_max_left _ _)
    · exact h

/-- With enough fuel, the loop stops only at a size within budget or at a
quality at the floor. -/
theorem finalQualityF_stop (sz : Nat → Nat) (MB : Nat) :
    ∀ fuel q, q ≤ fuel →
      sz (finalQualityF sz MB fuel q) ≤ MB ∨ finalQualityF sz MB fuel q ≤ 30 := by
  intro fuel
  induction fuel with
  | zero =>
    intro q hq
    right
    simp only [finalQualityF]
    omega
  | succ n ih =>
    intro q hq
    simp only [finalQualityF]
    split
    · rename_i h
      have hlt := decay_lt h.2
      exact ih _ (by omega)
    · rename_i h
      rw [not_and_or] at h
      rcases h with h | h
      · left; omega
      · right; omega

/-- When every quality is over budget, the loop walks all the way down to
the floor 30. -/
theorem finalQualityF_all_over (sz : Nat → Nat) (MB : Nat)
    (hall : ∀ q, MB < sz q) :
    ∀ fuel q, q ≤ fuel → 30 ≤ q → finalQualityF sz MB fuel q = 30 := by
  intro fuel
  induction fuel with
  | zero =>
    intro q h1 h2
    simp only [finalQualityF]
    omega
  | succ n ih =>
    intro q h1 h2
    simp only [finalQualityF]
    by_cases h : 30 < q
    · rw [if_pos ⟨hall q, h⟩]
      have hlt := decay_lt h
      exact ih _ (by omega) (le_max_left _ _)
    · rw [if_neg (fun hc => h hc.2)]
      omega

/-- The first attempted quality is the starting quality. -/
theorem attemptsF_head (sz : Nat → Nat) (MB : Nat) :
    ∀ fuel q, (attemptsF sz MB fuel q).head? = some q := by
  intro fuel q
  cases fuel with
  | zero => rfl
  | succ n =>
    simp only [attemptsF]
    split <;> rfl

/-- At least one encode always happens. -/
theorem attemptsF_ne_nil (sz : Nat → Nat) (MB : Nat) (fuel q : Nat) :
    attemptsF sz MB fuel q ≠ [] := by
  cases fuel with
  | zero => simp [attemptsF]
  | succ n =>
    simp only [attemptsF]
    split <;> simp

/-- The attempted qualities are a prefix of the pure decay chain: the ladder
walks the chain and stops early only by the loop guard. -/
theorem attemptsF_take_chain (sz : Nat → Nat) (MB : Nat) :
    ∀ fuel q, attemptsF sz MB fuel q
      = (qualityChainF fuel q).take (attemptsF sz MB fuel q).length := by
  intro fuel
  induction fuel with
  | zero => intro q; rfl
  | succ n ih =>
    intro q
    simp only [attemptsF, qualityChainF]
    by_cases h : MB < sz q ∧ 30 < q
    · rw [if_pos h, if_pos h.2]
      simp only [List.length_cons, List.take_succ_cons]
      exact congrArg (q :: ·) (ih _)
    · rw [if_neg h]
      by_cases h2 : 30 < q
      · rw [if_pos h2]
        rfl
      · rw [if_neg h2]
        rfl

/-- The attempted qualities never increase. -/
theorem attemptsF_nonincreasing (sz : Nat → Nat) (MB : Nat) :
    ∀ fuel q, List.Chain' (fun a b => b ≤ a) (attemptsF sz MB fuel q) := by
  intro fuel
  induction fuel with
  | zero => intro q; exact List.chain'_singleton q
  | succ n ih =>
    intro q
    simp only [attemptsF]
    split
    · rename_i h
      refine List.chain'_cons'.mpr ⟨?_, ih _⟩
      intro y hy
      rw [attemptsF_head] at hy
      simp only [Option.mem_some_iff] at hy
      subst hy
      exact le_of_lt (decay_lt h.2)
    · exact List.chain'_singleton q

/-- The number of encodes is at most `fuel + 1`. -/
theorem attemptsF_length (sz : Nat → Nat) (MB : Nat) :
    ∀ fuel q, (attemptsF sz MB fuel q).length ≤ fuel + 1 := by
  intro fuel
  induction fuel with
  | zero => intro q; simp [attemptsF]
  | succ n ih =>
    intro q
    simp only [attemptsF]
    split
    · have := ih (max 30 (q * 85 / 100))
      simp only [List.length_cons]
      omega
    · simp

/-- Every attempted quality before the last one was encoded while still over
budget and above the floor (the loop guard). -/
theorem attemptsF_over (sz : Nat → Nat) (MB : Nat) :
    ∀ fuel q i, i + 1 < (attemptsF sz MB fuel q).length →
      MB < sz ((attemptsF sz MB fuel q).getD i 0) ∧
        30 < (attemptsF sz MB fuel q).getD i 0 := by
  intro fuel
  induction fuel with
  | zero =>
    intro q i h
    simp [attemptsF] at h
  | succ n ih =>
    intro q i h
    simp only [attemptsF] at h ⊢
    by_cases hc : MB < sz q ∧ 30 < q
    · rw [if_pos hc] at h ⊢
      cases i with
      | zero =>
        rw [List.getD_cons_zero]
        exact hc
      | succ j =>
        rw [List.getD_cons_succ]
        simp only [List.length_cons] at h
        exact ih _ j (by omega)
    · rw [if_neg hc] at h
      simp at h

/-- The last attempted quality is the stopping quality. -/
theorem attemptsF_getLast (sz : Nat → Nat) (MB : Nat) :
    ∀ fuel q, (attemptsF sz MB fuel q).getLast? = some (finalQualityF sz MB fuel q) := by
  intro fuel
  induction fuel with
  | zero => intro q; rfl
  | succ n ih =>
    intro q
    simp only [attemptsF, finalQualityF]
    by_cases hc : MB < sz q ∧ 30 < q
    · rw [if_pos hc, if_pos hc]
      obtain ⟨b, L, hbL⟩ :=
        List.exists_cons_of_ne_nil (attemptsF_ne_nil sz MB n (max 30 (q * 85 / 100)))
      rw [hbL, List.getLast?_cons_cons, ← hbL]
      exact ih _
    · rw [if_neg hc, if_neg hc]
      rfl

/-! ## Support for the alpha-flattening discussion -/

/-- The alpha-mode half of the flattening claim does hold: an `RGBA` image is
composited onto the white canvas through its alpha band, and a fully
transparent pixel (alpha = 0) comes out exactly (255, 255, 255) in every
channel. -/
theorem flattenAlpha_rgba_transparent_white (img out : Img) (hm : img.mode = .RGBA)
    (h : flattenAlpha img = .ok out) (x y c : Nat) (ha : img.px x y 3 = 0) :
    out.px x y c = 255 := by
  obtain ⟨m, w, hgt, pix, pal, tr⟩ := img
  cases hm
  simp only [flattenAlpha, true_or, if_true, lastBand, pasteMasked,
    Except.ok.injEq] at h
  subst h
  dsimp only [whiteCanvas, srcChan] at ha ⊢
  rw [ha]
  exact blend_mask_zero _

/-! ## The claims -/

/-- C1 (code bug): the spec claims that a palette-indexed image whose palette
declares a transparent index is composited onto an opaque white canvas using
the image's own alpha channel, with fully transparent pixels becoming
(255, 255, 255).  On such an image `img.split()[-1]` is the palette-index
band (a mode-`P` image, not an alpha channel), and `paste` rejects it:
flattening raises `ValueError("bad transparency mask")` instead of
compositing — the claimed blending never happens on this part of the
claim's domain. -/
theorem c1_palette_transparency_crash :
    (pTransImg.mode = .P ∧ pTransImg.transparency.isSome = true) ∧
    flattenAlpha pTransImg = .error .badTransparencyMask :=
  ⟨⟨rfl, rfl⟩, rfl⟩

/-- C2: the encoder encodes once at the initial quality 86, then, while over
budget and above the floor, decays the quality by `max(30, ⌊q·0.85⌋)` and
re-encodes: the attempted sequence is a prefix of the pure decay chain
86, 73, 62, 52, 44, 37, 31, 30, it starts at 86, every non-final attempt was
over budget and above the floor, the loop keeps the most recent encoding
(the returned bytes are the encoding at the last attempted quality), and it
stops at the first size within budget or at the floor. -/
theorem c2_quality_ladder (codec : Img → Nat → List Nat) (MAX_BYTES : Nat)
    (img : Img) :
    qualityChain 86 = [86, 73, 62, 52, 44, 37, 31, 30] ∧
    attempts (encSize codec img) MAX_BYTES 86
      = (qualityChain 86).take (attempts (encSize codec img) MAX_BYTES 86).length ∧
    (attempts (encSize codec img) MAX_BYTES 86).head? = some 86 ∧
    (∀ i, i + 1 < (attempts (encSize codec img) MAX_BYTES 86).length →
      MAX_BYTES < encSize codec img ((attempts (encSize codec img) MAX_BYTES 86).getD i 0) ∧
        30 < (attempts (encSize codec img) MAX_BYTES 86).getD i 0) ∧
    (attempts (encSize codec img) MAX_BYTES 86).getLast?
      = some (finalQuality (encSize codec img) MAX_BYTES 86) ∧
    encodeToBudget codec MAX_BYTES img 86
      = (finalQuality (encSize codec img) MAX_BYTES 86,
         codec img (finalQuality (encSize codec img) MAX_BYTES 86)) ∧
    (encSize codec img (finalQuality (encSize codec img) MAX_BYTES 86) ≤ MAX_BYTES ∨
      finalQuality (encSize codec img) MAX_BYTES 86 = 30) := by
  refine ⟨by decide, attemptsF_take_chain _ _ 86 86, attemptsF_head _ _ 86 86,
    attemptsF_over _ _ 86 86, attemptsF_getLast _ _ 86 86,
    budgetLoop_final codec MAX_BYTES img 86, ?_⟩
  rcases finalQualityF_stop (encSize codec img) MAX_BYTES 86 86 (le_refl 86) with h | h
  · exact Or.inl h
  · exact Or.inr (le_antisymm h (finalQualityF_ge _ _ 86 86 (by omega)))

/-- Witness for C2: with a codec whose size at quality `q` is `q` bytes and a
60-byte budget, the theorem's loop equation pins the returned pair, and the
attempted sequence evaluates to exactly 86, 73, 62, 52. -/
theorem c2_quality_ladder_witness :
    encodeToBudget demoCodec 60 demoImg 86
      = (finalQuality (encSize demoCodec demoImg) 60 86,
         demoCodec demoImg (finalQuality (encSize demoCodec demoImg) 60 86)) ∧
    finalQuality (encSize demoCodec demoImg) 60 86 = 52 ∧
    attempts (encSize demoCodec demoImg) 60 86 = [86, 73, 62, 52] :=
  ⟨(c2_quality_ladder demoCodec 60 demoImg).2.2.2.2.2.1, by decide, by decide⟩

/-- C3: whenever the initial quality is at least the floor 30, the quality
used for the returned encoding is at least 30, and the attempted quality
sequence never increases. -/
theorem c3_floor_and_monotone (codec : Img → Nat → List Nat) (MAX_BYTES : Nat)
    (img : Img) (initQ : Nat) (h : 30 ≤ initQ) :
    30 ≤ (encodeToBudget codec MAX_BYTES img initQ).1 ∧
    List.Chain' (fun a b => b ≤ a) (attempts (encSize codec img) MAX_BYTES initQ) := by
  constructor
  · rw [budgetLoop_final]
    exact finalQualityF_ge _ _ initQ initQ h
  · exact attemptsF_nonincreasing _ _ initQ initQ

/-- Witness for C3 at the demo codec and budget 60. -/
theorem c3_floor_and_monotone_witness :
    30 ≤ (encodeToBudget demoCodec 60 demoImg 86).1 ∧
    List.Chain' (fun a b => b ≤ a) (attempts (encSize demoCodec demoImg) 60 86) :=
  c3_floor_and_monotone demoCodec 60 demoImg 86 (by omega)

/-- C4 fails as stated: with `maxDimension = 1600` and a 4800×1001 source the
code computes `int(1001 * (1600/4800)) = 333`, while rounding
1001·1600/4800 = 333.66… to the nearest integer gives 334 — the resize
truncates, it does not round to nearest. -/
theorem c4_resize_not_nearest :
    (resizeStep 1600 wideImg).height = 333 ∧
    specRoundNearest (wideImg.height * 1600) (max wideImg.width wideImg.height) = 334 ∧
    (resizeStep 1600 wideImg).height
      ≠ specRoundNearest (wideImg.height * 1600) (max wideImg.width wideImg.height) := by
  decide

/-- C4 amended: when the longer side exceeds the bound, each dimension is
multiplied by the scale `maxDimension / longSide` and the result is
truncated (floored) to an integer independently — Python's `int()` — rather
than rounded to nearest. -/
theorem c4_resize_floor_of_scale (MAX_DIM : Nat) (img : Img)
    (h : MAX_DIM < max img.width img.height) :
    (resizeStep MAX_DIM img).width
        = ⌊((img.width : ℚ) * MAX_DIM) / ((max img.width img.height : Nat) : ℚ)⌋₊ ∧
    (resizeStep MAX_DIM img).height
        = ⌊((img.height : ℚ) * MAX_DIM) / ((max img.width img.height : Nat) : ℚ)⌋₊ := by
  have key : ∀ d : Nat, d * MAX_DIM / max img.width img.height
      = ⌊((d : ℚ) * MAX_DIM) / ((max img.width img.height : Nat) : ℚ)⌋₊ := by
    intro d
    rw [show ((d : ℚ) * MAX_DIM) = ((d * MAX_DIM : Nat) : ℚ) by push_cast; ring]
    rw [Nat.floor_div_nat, Nat.floor_natCast]
  unfold resizeStep
  rw [if_pos h]
  exact ⟨key img.width, key img.height⟩

/-- Witness for the amended C4 at the 4800×1001 raster. -/
theorem c4_resize_floor_of_scale_witness :
    (resizeStep 1600 wideImg).width
        = ⌊((wideImg.width : ℚ) * 1600) / ((max wideImg.width wideImg.height : Nat) : ℚ)⌋₊ ∧
    (resizeStep 1600 wideImg).height
        = ⌊((wideImg.height : ℚ) * 1600) / ((max wideImg.width wideImg.height : Nat) : ℚ)⌋₊ :=
  c4_resize_floor_of_scale 1600 wideImg (by decide)

/-- C5: after normalization (alpha flattening, then the bounded resize) the
longer side is at most `MAX_DIM`; and when the decoded longer side was
already within the bound, width and height are unchanged — no upscaling
ever happens. -/
theorem c5_dimension_bound (MAX_DIM : Nat) (img out : Img)
    (h : normalizeImg MAX_DIM img = .ok out) :
    max out.width out.height ≤ MAX_DIM ∧
    (max img.width img.height ≤ MAX_DIM →
      out.width = img.width ∧ out.height = img.height) := by
  unfold normalizeImg at h
  cases hf : flattenAlpha img with
  | error e =>
    rw [hf] at h
    cases h
  | ok flat =>
    rw [hf] at h
    injection h with h
    obtain ⟨hw, hh⟩ := flattenAlpha_dims img flat hf
    subst h
    refine ⟨resizeStep_max_le MAX_DIM flat, fun hle => ?_⟩
    rw [resizeStep_id MAX_DIM flat (by rw [hw, hh]; exact hle)]
    exact ⟨hw, hh⟩

/-- Witness for C5: the 4800×1001 raster normalizes to 1600×333, whose
longer side meets the bound. -/
theorem c5_dimension_bound_witness :
    normalizeImg 1600 wideImg = .ok (resizeStep 1600 wideImg) ∧
    (max (resizeStep 1600 wideImg).width (resizeStep 1600 wideImg).height ≤ 1600 ∧
      (max wideImg.width wideImg.height ≤ 1600 →
        (resizeStep 1600 wideImg).width = wideImg.width ∧
          (resizeStep 1600 wideImg).height = wideImg.height)) :=
  ⟨rfl, c5_dimension_bound 1600 wideImg (resizeStep 1600 wideImg) rfl⟩

/-- C6: the encoder never fails merely because the output exceeds the
budget: when every quality (the floor included) is over budget, the loop
still terminates normally and returns the floor-quality encoding — a
complete encoding, over budget, as an ordinary non-error result. -/
theorem c6_floor_result_when_budget_unreachable (codec : Img → Nat → List Nat)
    (MAX_BYTES : Nat) (img : Img) (initQ : Nat)
    (hover : ∀ q, MAX_BYTES < (codec img q).length) (hinit : 30 ≤ initQ) :
    encodeToBudget codec MAX_BYTES img initQ = (30, codec img 30) ∧
    MAX_BYTES < (codec img 30).length := by
  refine ⟨?_, hover 30⟩
  rw [budgetLoop_final]
  have hfq : finalQuality (encSize codec img) MAX_BYTES initQ = 30 :=
    finalQualityF_all_over (encSize codec img) MAX_BYTES hover initQ initQ
      (le_refl _) hinit
  rw [hfq]

/-- Witness for C6: a codec stuck at 100 bytes against a 10-byte budget. -/
theorem c6_floor_result_when_budget_unreachable_witness :
    encodeToBudget bigCodec 10 demoImg 86 = (30, bigCodec demoImg 30) ∧
    10 < (bigCodec demoImg 30).length :=
  c6_floor_result_when_budget_unreachable bigCodec 10 demoImg 86
    (fun _ => by simp [bigCodec]) (by omega)

/-- C7: when the initial encode already fits the budget, exactly one encode
happens and the returned pair is the initial quality with its encoding. -/
theorem c7_single_encode (codec : Img → Nat → List Nat) (MAX_BYTES : Nat)
    (img : Img) (initQ : Nat) (h : (codec img initQ).length ≤ MAX_BYTES) :
    attempts (encSize codec img) MAX_BYTES initQ = [initQ] ∧
    encodeToBudget codec MAX_BYTES img initQ = (initQ, codec img initQ) := by
  have hnc : ¬ (MAX_BYTES < (codec img initQ).length ∧ 30 < initQ) :=
    fun hc => absurd h (Nat.not_le.mpr hc.1)
  constructor
  · show attemptsF _ _ initQ initQ = [initQ]
    cases initQ with
    | zero => rfl
    | succ n =>
      simp only [attemptsF, encSize]
      rw [if_neg hnc]
  · show budgetLoopF _ _ _ initQ initQ _ = _
    cases initQ with
    | zero => rfl
    | succ n =>
      simp only [budgetLoopF]
      rw [if_neg hnc]

/-- Witness for C7: at a 100-byte budget the demo codec's 86-byte initial
encode already fits. -/
theorem c7_single_encode_witness :
    attempts (encSize demoCodec demoImg) 100 86 = [86] ∧
    encodeToBudget demoCodec 100 demoImg 86 = (86, demoCodec demoImg 86) :=
  c7_single_encode demoCodec 100 demoImg 86 (by decide)

/-- C8: the ladder performs at most `initQ + 1` encodes — at most 101 on the
1–100 quality scale — so the loop terminates after a bounded number of
iterations and the pipeline is total on decoded inputs. -/
theorem c8_bounded_iterations (codec : Img → Nat → List Nat) (MAX_BYTES : Nat)
    (img : Img) (initQ : Nat) (h : initQ ≤ 100) :
    (attempts (encSize codec img) MAX_BYTES initQ).length ≤ 101 := by
  show (attemptsF (encSize codec img) MAX_BYTES initQ initQ).length ≤ 101
  have := attemptsF_length (encSize codec img) MAX_BYTES initQ initQ
  omega

/-- Witness for C8. -/
theorem c8_bounded_iterations_witness :
    (attempts (encSize demoCodec demoImg) 60 86).length ≤ 101 :=
  c8_bounded_iterations demoCodec 60 demoImg 86 (by omega)

/-- C9: the pipeline is deterministic — two runs of `compress_image_bytes`
on equal input bytes with the same configuration and codec produce identical
results (the embedded codec is a pure function of the pixel buffer and the
quality, reflecting the fixed, randomness-free encode call of line 52). -/
theorem c9_deterministic (decode : List Nat → Except PILError Img)
    (codec : Img → Nat → List Nat) (MAX_BYTES MAX_DIM JPEG_QUALITY : Nat)
    (b1 b2 : List Nat) (h : b1 = b2) :
    compress_image_bytes decode codec MAX_BYTES MAX_DIM JPEG_QUALITY b1
      = compress_image_bytes decode codec MAX_BYTES MAX_DIM JPEG_QUALITY b2 :=
  congrArg _ h

/-- Witness for C9. -/
theorem c9_deterministic_witness :
    compress_image_bytes demoDecode demoCodec 60 1600 86 [1, 2, 3]
      = compress_image_bytes demoDecode demoCodec 60 1600 86 [1, 2, 3] :=
  c9_deterministic demoDecode demoCodec 60 1600 86 [1, 2, 3] [1, 2, 3] rfl

/-- C10: when the fetch succeeds and the raw byte length is within
`MAX_BYTES`, the handler returns the fetched bytes verbatim (line 77) with
the fetched content type — for every decoder and codec, which therefore are
never consulted: no decoding, normalization, or re-encoding applies to such
responses. -/
theorem c10_small_fetch_verbatim (API_KEY : String)
    (MAX_BYTES MAX_DIM JPEG_QUALITY : Nat)
    (decode : List Nat → Except PILError Img) (codec : Img → Nat → List Nat)
    (url : String) (jsonFlag : Bool) (bytes : List Nat) (contentType : String)
    (h : bytes.length ≤ MAX_BYTES) :
    compress API_KEY MAX_BYTES MAX_DIM JPEG_QUALITY decode codec
        (some API_KEY) (some url) jsonFlag (.ok (bytes, contentType))
      = .fileResp bytes contentType "image.jpg" := by
  unfold compress
  simp [h]

/-- Witness for C10: three fetched bytes against a 1000-byte limit come back
verbatim. -/
theorem c10_small_fetch_verbatim_witness :
    compress "k" 1000 1600 86 demoDecode demoCodec (some "k") (some "u") false
        (.ok ([1, 2, 3], "image/png"))
      = .fileResp [1, 2, 3] "image/png" "image.jpg" :=
  c10_small_fetch_verbatim "k" 1000 1600 86 demoDecode demoCodec "u" false
    [1, 2, 3] "image/png" (by decide)

end ImageCompressor
